import Mathlib

/-!
Shallow embedding of the conversation session engine of `mypygpt.py`
(class `MyPyGPTClient`): the turn store, the continuation resolver
(`continue_message`), the text reflow engine (`to_line_length`), the export
formatter (`export_session`, including its normalization pass and
`add_space_when_needed`), and session persistence (`save_current_session`,
`load_session`).

Python strings are modelled as `List Char`; message dicts as the `Turn`
structure (the optional `personality` key as an `Option`); the mutable
client fields that the engine reads and writes as the `ClientState`
structure; JSON records as the `SavedRecord` structure with `Option` fields
(a missing key is `none`).  Code that can raise an uncaught exception
(`IndexError` from `data[-1]` or `message[0]`, `KeyError` from
`ROLE_MAP[...]`) is modelled in `Except Unit`.  GUI plumbing (dialogs,
display widget, file pickers) is outside the model; user-supplied values
that dialogs would produce (export file name, reflow width, the provider
reply) are passed as arguments.
-/

/-- Python-style whitespace test used by `str.split()` and the regex
`^\s*` in `to_line_length`. -/
def isWS (c : Char) : Bool := c.isWhitespace

/-- Role string constant `USER = "user"`. -/
def USER : List Char := ("user").toList

/-- Role string constant `ASSISTANT = "assistant"`. -/
def ASSISTANT : List Char := ("assistant").toList

/-- Role string constant `SYSTEM = "system"`. -/
def SYSTEM : List Char := ("system").toList

/-- Continuation sentinel constant `CONTINUE = "continue"`. -/
def CONTINUE : List Char := ("continue").toList

/-- Display-name constant `USER_NAME = "  __You"`. -/
def USER_NAME : List Char := ("  __You").toList

/-- Display-name constant `ASSISTANT_NAME = "MyPyGPT"`. -/
def ASSISTANT_NAME : List Char := ("MyPyGPT").toList

/-- Display-name constant `SYSTEM_NAME = "SYS    "`. -/
def SYSTEM_NAME : List Char := ("SYS    ").toList

/-- Display-name constant `PROMPT_NAME = "PROMPT "`. -/
def PROMPT_NAME : List Char := ("PROMPT ").toList

/-- Display-name constant `DEBUG_NAME = " DEBUG_"`. -/
def DEBUG_NAME : List Char := (" DEBUG_").toList

/-- Stand-in for the long `SYSTEM_MESSAGE` base-instruction literal.  It is
written into the saved record's `system` field and never read back or
branched on by the engine, so its exact text is immaterial here. -/
def SYSTEM_MESSAGE : List Char := ("base system instructions").toList

/-- Stand-in for the fixed apology literal that `get_response_from_chatgpt`
returns together with the `system` role when the provider call raises.  Its
exact text is immaterial: the engine never branches on it. -/
def FAILURE_MESSAGE : List Char := ("I could not process your request.").toList

/-- One message dict of `session_data`: keys `role`, `content` and the
optional `personality`. -/
structure Turn where
  role : List Char
  content : List Char
  personality : Option (List Char)
deriving DecidableEq

/-- The client fields that the session engine reads and writes:
`session_data`, `model`, `max_tokens`, `personality`, `add_sys_msg`,
`current_session` and the temporary-session checkbox. -/
structure ClientState where
  session_data : List Turn
  model : List Char
  max_tokens : Nat
  personality : List Char
  add_sys_msg : List Char
  current_session : Option (List Char)
  temp_session : Bool
deriving DecidableEq

/-- The on-disk session JSON document: keys `model`, `max_tokens`,
`system`, `personality`, `add_sys_msg`, `history`.  Each field is an
`Option` because `load_session` tolerates missing keys. -/
structure SavedRecord where
  model : Option (List Char)
  max_tokens : Option Nat
  system : Option (List Char)
  personality : Option (List Char)
  add_sys_msg : Option (List Char)
  history : Option (List Turn)
deriving DecidableEq

instance decEqExcept {ε α : Type} [DecidableEq ε] [DecidableEq α] :
    DecidableEq (Except ε α) := fun a b =>
  match a, b with
  | .error e, .error f =>
    if h : e = f then isTrue (congrArg Except.error h)
    else isFalse (fun hc => h (Except.error.inj hc))
  | .ok x, .ok y =>
    if h : x = y then isTrue (congrArg Except.ok h)
    else isFalse (fun hc => h (Except.ok.inj hc))
  | .error _, .ok _ => isFalse (fun hc => Except.noConfusion hc)
  | .ok _, .error _ => isFalse (fun hc => Except.noConfusion hc)

/-! ## Text reflow engine (`to_line_length`, lines 732-753) -/

/-- The leading whitespace run of a line: `match(r"^\s*", line).group()`. -/
def indentOf (line : List Char) : List Char := line.takeWhile isWS

/-- Helper for `splitWords`; the accumulator holds the current word
reversed. -/
def splitWordsAux : List Char → List Char → List (List Char)
  | [], acc => if acc = [] then [] else [acc.reverse]
  | c :: rest, acc =>
    if isWS c then
      if acc = [] then splitWordsAux rest []
      else acc.reverse :: splitWordsAux rest []
    else splitWordsAux rest (c :: acc)

/-- Python `line.split()`: whitespace-delimited words, empties discarded. -/
def splitWords (line : List Char) : List (List Char) := splitWordsAux line []

/-- Helper for `splitLines`; the accumulator holds the current line
reversed. -/
def splitLinesAux : List Char → List Char → List (List Char)
  | [], acc => [acc.reverse]
  | c :: rest, acc =>
    if c = '\n' then acc.reverse :: splitLinesAux rest []
    else splitLinesAux rest (c :: acc)

/-- Python `s.split("\n")`: split on newlines, keeping empty pieces. -/
def splitLines (s : List Char) : List (List Char) := splitLinesAux s []

/-- Python `s.rstrip()`: drop trailing whitespace. -/
def rstrip (s : List Char) : List Char := (s.reverse.dropWhile isWS).reverse

/-- One step of the inner word loop of `to_line_length`.  The state is
`(outarr, line2, maxlength)`.  If the candidate word does not fit
(`LL2 + L + 1 > length`) the running line is closed (updating `maxlength`)
and a new one starts as `indentation + w`; otherwise the word is appended,
with a space exactly when `line2` is non-empty
(`line2 += f" {w}" if line2 else w`). -/
def reflowStep (len : Nat) (ind : List Char)
    (st : List (List Char) × List Char × Nat) (w : List Char) :
    List (List Char) × List Char × Nat :=
  if st.2.1.length + w.length + 1 > len then
    (st.1 ++ [st.2.1], ind ++ w,
      if st.2.2 < st.2.1.length then st.2.1.length else st.2.2)
  else
    (st.1, st.2.1 ++ (if st.2.1 = [] then w else ' ' :: w), st.2.2)

/-- `to_line_length(lines, length)` of the plain-text export branch.  For
each source line it captures the indentation, splits the remainder into
words and rebuilds lines greedily via `reflowStep`; it returns the flat
list of output lines (the source joins them with `"\n"`, which determines
and is determined by this list, as no output line contains a newline)
together with the realized `maxlength`.  The extra `Nat` argument threads
`maxlength`, initialised to `0` by callers as in the source. -/
def to_line_length (len : Nat) : List (List Char) → Nat → List (List Char) × Nat
  | [], maxlength => ([], maxlength)
  | line :: rest, maxlength =>
    let st := (splitWords line).foldl (reflowStep len (indentOf line))
      ([], indentOf line, maxlength)
    let m2 := if st.2.2 < st.2.1.length then st.2.1.length else st.2.2
    let r := to_line_length len rest m2
    (st.1 ++ [st.2.1] ++ r.1, r.2)

/-! ## Export normalization (`export_session`, lines 710-726) and
`add_space_when_needed` (lines 329-330) -/

/-- The closing-punctuation list of `add_space_when_needed`. -/
def closingPunct : List Char := ['.', ',', '!', '?', ':', ';']

/-- `add_space_when_needed(message)`: prepends `" "` unless the first
character is closing punctuation (`[" ", ""][message[0] in [...]] +
message`).  On an empty message, `message[0]` raises `IndexError`,
modelled as `none`. -/
def add_space_when_needed : List Char → Option (List Char)
  | [] => none
  | ch :: rest => some ((if ch ∈ closingPunct then [] else [' ']) ++ (ch :: rest))

/-- A normalized export entry `{ROLE: role, CONTENT: content}`. -/
structure NormEntry where
  role : List Char
  content : List Char
deriving DecidableEq

/-- One iteration of the normalization loop of `export_session` over a
stored turn, with state `(data, is_continue)`.  When `is_continue` is set,
`data[-1][CONTENT] += add_space_when_needed(content)` (an `IndexError`,
modelled as `.error`, if `data` is empty or the content is empty).  A user
turn whose content is the continuation sentinel or empty only sets
`is_continue`.  Otherwise the entry is appended, with the role rewritten:
kept for `user`; coalesced to `system` for the display-name roles
`DEBUG_NAME`, `SYSTEM_NAME`, `PROMPT_NAME`; replaced by the recorded
personality (default `assistant`) for anything else. -/
def normStep (data : List NormEntry) (is_continue : Bool) (sd : Turn) :
    Except Unit (List NormEntry × Bool) :=
  if is_continue then
    match data.getLast? with
    | none => .error ()
    | some lastEntry =>
      match add_space_when_needed sd.content with
      | none => .error ()
      | some spaced =>
        .ok (data.dropLast ++ [⟨lastEntry.role, lastEntry.content ++ spaced⟩], false)
  else if sd.role = USER then
    if sd.content = CONTINUE ∨ sd.content = [] then .ok (data, true)
    else .ok (data ++ [⟨USER, sd.content⟩], false)
  else if sd.role = DEBUG_NAME ∨ sd.role = SYSTEM_NAME ∨ sd.role = PROMPT_NAME then
    .ok (data ++ [⟨SYSTEM, sd.content⟩], false)
  else
    .ok (data ++ [⟨sd.personality.getD ASSISTANT, sd.content⟩], false)

/-- The normalization loop of `export_session` run to completion. -/
def exportNormalizeLoop : List NormEntry → Bool → List Turn → Except Unit (List NormEntry)
  | data, _, [] => .ok data
  | data, is_continue, sd :: rest =>
    match normStep data is_continue sd with
    | .error e => .error e
    | .ok st => exportNormalizeLoop st.1 st.2 rest

/-- The full normalization pass of `export_session` (run for every
non-JSON export), starting from an empty `data` with `is_continue`
cleared. -/
def exportNormalize (session_data : List Turn) : Except Unit (List NormEntry) :=
  exportNormalizeLoop [] false session_data

/-! ## Export formatting and dispatch (`export_session`, lines 646-816) -/

/-- Extension constant `"fountain"`. -/
def FOUNTAIN : List Char := ("fountain").toList

/-- Extension constant `"html"`. -/
def HTML : List Char := ("html").toList

/-- Extension constant `"json"`. -/
def JSON : List Char := ("json").toList

/-- Extension constant `"md"`. -/
def MARKDOWN : List Char := ("md").toList

/-- Extension constant `PTEXT = "txt"`. -/
def PTEXT : List Char := ("txt").toList

/-- `path.splitext(session_file)[1][1:]` for a bare file name (no
directory separators): the part after the last dot, empty when there is no
dot or when only dots precede it (so names like a lone dotfile have no
extension, as in Python). -/
def extOf (name : List Char) : List Char :=
  let revTail := name.reverse.takeWhile (fun c => !(c == '.'))
  match name.reverse.drop revTail.length with
  | [] => []
  | _ :: before => if before.any (fun c => !(c == '.')) then revTail.reverse else []

/-- The plain-text body builder: for one normalized entry, reflow its
content at the chosen width, append it and a newline, then a dash
separator of width `maxlength` after a `user` entry, nothing after a
`system` entry (the `continue` in the source skips only this step: the
content was already appended), and a blank line otherwise. -/
def plainEntry (len : Nat) (fout : List Char) (entry : NormEntry) : List Char :=
  let r := to_line_length len (splitLines entry.content) 0
  let fout2 := fout ++ List.intercalate ['\n'] r.1 ++ ['\n']
  if entry.role = USER then fout2 ++ List.replicate r.2 '-' ++ ['\n']
  else if entry.role = SYSTEM then fout2
  else fout2 ++ ['\n']

/-- The Markdown body builder: skip `system` entries; label `user` entries
`query` and all others `response`; join internal lines with the hard-break
sequence. -/
def mdEntry (fout : List Char) (entry : NormEntry) : List Char :=
  let lines := List.intercalate (("  \n").toList) (splitLines entry.content)
  if entry.role = SYSTEM then fout
  else
    let roleLabel := if entry.role = USER then ("query").toList else ("response").toList
    fout ++ ("**").toList ++ roleLabel ++ (":** ").toList ++ lines ++ ("\n\n").toList

/-- The JSON document written by both `save_current_session` and the JSON
branch of `export_session`: all keys present. -/
def recordOf (st : ClientState) : SavedRecord :=
  { model := some st.model, max_tokens := some st.max_tokens,
    system := some SYSTEM_MESSAGE, personality := some st.personality,
    add_sys_msg := some st.add_sys_msg, history := some st.session_data }

/-- What `export_session` writes to the destination file: plain text for
the non-JSON branches, the structured record for JSON. -/
inductive Written where
  | text (s : List Char)
  | record (r : SavedRecord)
deriving DecidableEq

/-- The observable outcome of `export_session`: whether the
invalid-extension error popup was shown, and what was written. -/
structure ExportResult where
  invalid_extension : Bool
  written : Written
deriving DecidableEq

/-- `export_session` after the destination name is fixed and overwriting
confirmed (the dialogs are Presentation-Layer collaborators).  The
lower-cased extension is checked against the known kinds; an unknown one
shows the invalid-extension error but — there being no `return` — the
function still proceeds with the extension unchanged; an empty one
defaults to `PTEXT`.  For non-JSON extensions the turns are normalized
(which can raise, modelled as `.error`) and a body is built only by the
`PTEXT` and `MARKDOWN` branches, so other extensions write
`"".rstrip() + "\n"`.  The JSON branch writes the raw structured record.
`len` is the width the `PTEXT` branch would obtain from its dialog. -/
def export_session (st : ClientState) (session_file : List Char) (len : Nat) :
    Except Unit ExportResult :=
  let file_ext0 := (extOf session_file).map Char.toLower
  let invalid := ¬ (file_ext0 ∈ [FOUNTAIN, HTML, JSON, MARKDOWN, PTEXT, ([] : List Char)])
  let file_ext := if invalid then file_ext0
    else if file_ext0 = [] then PTEXT else file_ext0
  match (if file_ext = JSON then .ok [] else exportNormalize st.session_data) with
  | .error e => .error e
  | .ok data =>
    let fout : List Char :=
      if file_ext = PTEXT then data.foldl (plainEntry len) []
      else if file_ext = MARKDOWN then data.foldl mdEntry []
      else []
    let written := if file_ext = JSON then Written.record (recordOf st)
      else Written.text (rstrip fout ++ ['\n'])
    .ok ⟨invalid, written⟩

/-! ## Continuation resolver (`continue_message`, lines 448-467, together
with `create_completion_request` / `get_response_from_chatgpt` /
`get_and_update_response` for the storage effect) -/

/-- The two failure popups of `continue_message`, under the error-taxonomy
names used by the specification. -/
inductive ContinueError where
  | NothingToContinue
  | NotContinuable
deriving DecidableEq

/-- The observable outcome of the continue command: the turn store after
the command, which failure popup (if any) was shown, and whether the
Completion Provider was called. -/
structure ContinueOutcome where
  store : List Turn
  errorShown : Option ContinueError
  providerCalled : Bool
deriving DecidableEq

/-- `continue_message()`.  An empty store fails (popup modelled as
`NothingToContinue`); a last role other than `assistant`/`user` fails
(`NotContinuable`); both failures return before any provider interaction.
Otherwise `get_and_update_response(CONTINUE, ...)` runs:
`create_completion_request` appends the sentinel `{role: user, content:
"continue"}` (no personality key) to `session_data` itself, the provider
is called on that history, and the (already regex-cleaned) reply is
appended as a new `assistant` turn tagged with the current personality —
or, when the provider raises, the apology placeholder as a `system`
turn. -/
def continue_message (store : List Turn)
    (provider : List Turn → Except Unit (List Char))
    (current_personality : List Char) : ContinueOutcome :=
  match store.getLast? with
  | none => ⟨store, some .NothingToContinue, false⟩
  | some last =>
    if last.role = ASSISTANT ∨ last.role = USER then
      let history := store ++ [⟨USER, CONTINUE, none⟩]
      match provider history with
      | .ok reply => ⟨history ++ [⟨ASSISTANT, reply, some current_personality⟩], none, true⟩
      | .error _ => ⟨history ++ [⟨SYSTEM, FAILURE_MESSAGE, some current_personality⟩], none, true⟩
    else ⟨store, some .NotContinuable, false⟩

/-! ## Session persistence (`save_current_session`, lines 587-605;
`load_session`, lines 818-868) -/

/-- `save_current_session()`: writes the full record when a current
session exists (a non-empty name, by Python truthiness) and the
temporary-session box is not ticked; otherwise writes nothing. -/
def save_current_session (st : ClientState) : Option SavedRecord :=
  match st.current_session with
  | none => none
  | some name => if name ≠ [] ∧ ¬ st.temp_session then some (recordOf st) else none

/-- The `ROLE_MAP` dict lookup; `none` models the `KeyError` raised for an
unknown role. -/
def lookupRoleName (r : List Char) : Option (List Char) :=
  if r = USER then some USER_NAME
  else if r = ASSISTANT then some ASSISTANT_NAME
  else if r = SYSTEM then some SYSTEM_NAME
  else none

/-- The replay loop at the end of `load_session`, accumulating onto the
existing `session_data`.  A loaded assistant turn while `is_continued`
clears the flag (its display merges, role set to `None`) and is appended;
a turn whose display name is `SYSTEM_NAME` hits `continue` and is NOT
appended; any other turn is appended, setting `is_continued` when it is
the user continuation sentinel. -/
def loadLoop : List Turn → Bool → List Turn → Except Unit (List Turn)
  | acc, _, [] => .ok acc
  | acc, is_continued, entry :: rest =>
    match lookupRoleName entry.role with
    | none => .error ()
    | some rn =>
      if rn = ASSISTANT_NAME ∧ is_continued then
        loadLoop (acc ++ [entry]) false rest
      else if rn = SYSTEM_NAME then
        loadLoop acc is_continued rest
      else
        loadLoop (acc ++ [entry])
          (if rn = USER_NAME ∧ entry.content = CONTINUE then true else is_continued) rest

/-- `load_session` after the file is chosen and parsed into `rec`
(`session_name` is the chosen file's base name).  Each generation-parameter
field present in the record overwrites the client's; the record's history
(default `[]`) is then replayed through `loadLoop` onto the existing
`session_data`. -/
def load_session (st : ClientState) (rec : SavedRecord) (session_name : List Char) :
    Except Unit ClientState :=
  let st1 : ClientState :=
    { st with
      model := rec.model.getD st.model,
      personality := rec.personality.getD st.personality,
      add_sys_msg := rec.add_sys_msg.getD st.add_sys_msg,
      max_tokens := rec.max_tokens.getD st.max_tokens,
      current_session := some session_name }
  match loadLoop st1.session_data false (rec.history.getD []) with
  | .error e => .error e
  | .ok sd => .ok { st1 with session_data := sd }

/-! ## Words-and-joins helpers for stating the reflow claims -/

/-- Append further words to a running line, one space before each:
the way the greedy loop extends a non-empty `line2`. -/
def appendWords (cur : List Char) (ws : List (List Char)) : List Char :=
  ws.foldl (fun a w => a ++ ' ' :: w) cur

/-- Python `" ".join(ws)`. -/
def joinWords : List (List Char) → List Char
  | [] => []
  | w :: ws => appendWords w ws

/-! ## Concrete states used by the closed theorems -/

/-- A baseline client state with the constructor-time defaults of
`MyPyGPTClient.__init__`. -/
def baseState : ClientState :=
  { session_data := [], model := ("gpt-4o-mini").toList, max_tokens := 150,
    personality := ("neutral").toList, add_sys_msg := [],
    current_session := none, temp_session := false }

/-- The non-temporary session of the C1 counterexample: its history holds a
provider-failure placeholder (`system` role), which `save_current_session`
stores but `load_session` drops. -/
def c1Session : ClientState :=
  { baseState with
    session_data := [⟨SYSTEM, ("s").toList, some (("neutral").toList)⟩],
    current_session := some (("a").toList) }

/-- Client state of the C4 failing input: one stored `system` turn. -/
def c4Client : ClientState :=
  { baseState with
    session_data := [⟨SYSTEM, ("oops").toList, some (("neutral").toList)⟩] }

/-- Client state of the C7 failing input: one ordinary user turn. -/
def c7Client : ClientState :=
  { baseState with session_data := [⟨USER, ("hi").toList, none⟩] }

/-- Saved record of the C10 counterexample: a history holding one `system`
turn, every generation-parameter key absent. -/
def c10Rec : SavedRecord :=
  { model := none, max_tokens := none, system := none, personality := none,
    add_sys_msg := none, history := some [⟨SYSTEM, ("x").toList, none⟩] }

/-- Client state of the C10 counterexample: one user turn already in
memory. -/
def c10Client : ClientState :=
  { baseState with session_data := [⟨USER, ("q").toList, none⟩] }

/-- A non-temporary session with a system-free history, used to witness
the save/load round trip. -/
def c1WitSession : ClientState :=
  { baseState with
    session_data := [⟨USER, ("hi").toList, none⟩,
      ⟨ASSISTANT, ("hello").toList, some (("neutral").toList)⟩],
    current_session := some (("a").toList) }

/-! ## Theorems -/

/-- C9 counterexample: a store consisting of exactly one continuation
sentinel normalizes successfully to an empty output — no indexing error is
raised, refuting the claim for this input. -/
theorem c9_counterexample : exportNormalize [⟨USER, CONTINUE, none⟩] = .ok [] := by
  decide

/-- C3 counterexample: with a user turn as the last entry, the continue
command appends the sentinel and the reply in storage, but export
normalization then joins the reply onto the previously emitted entry (the
user's own prompt), so a merge does occur at export time. -/
theorem c3_counterexample :
    (continue_message [⟨USER, ("hi").toList, none⟩]
        (fun _ => .ok (("yo").toList)) (("neutral").toList)).store
      = [⟨USER, ("hi").toList, none⟩, ⟨USER, CONTINUE, none⟩,
         ⟨ASSISTANT, ("yo").toList, some (("neutral").toList)⟩] ∧
    exportNormalize [⟨USER, ("hi").toList, none⟩, ⟨USER, CONTINUE, none⟩,
         ⟨ASSISTANT, ("yo").toList, some (("neutral").toList)⟩]
      = .ok [⟨USER, ("hi yo").toList⟩] := by
  decide

/-- C2 counterexample: at width 5 every word of the input line is within
the width, yet reflowing the indented line produces the line `"  abcd"` of
length 6 — over the width although its single word `"abcd"` is not longer
than the width, so the exception clause of the claim does not cover it. -/
theorem c2_counterexample :
    (∀ w ∈ splitWords (("  abcd efgh").toList), w.length ≤ 5) ∧
    (to_line_length 5 [("  abcd efgh").toList] 0).1
      = [("  ").toList, ("  abcd").toList, ("  efgh").toList] ∧
    (("  abcd").toList).length = 6 ∧
    splitWords (("  abcd").toList) = [("abcd").toList] := by
  decide

/-- C8 counterexample: `"x\ndddd"` is the engine's own wrapping of
`"x dddd"` at width 4 and every line and word is within the width, yet
reflowing it again at width 4 inserts an empty line before `"dddd"`;
likewise the single short indented line `"  a"` is not reproduced at width
60 — an extra space appears after the indent. -/
theorem c8_counterexample :
    (to_line_length 4 [("x dddd").toList] 0).1 = [("x").toList, ("dddd").toList] ∧
    (∀ l ∈ [("x").toList, ("dddd").toList], l.length ≤ 4) ∧
    (∀ w ∈ splitWords (("x dddd").toList), w.length ≤ 4) ∧
    (to_line_length 4 [("x").toList, ("dddd").toList] 0).1
      ≠ [("x").toList, ("dddd").toList] ∧
    (to_line_length 4 [("x").toList, ("dddd").toList] 0).1
      = [("x").toList, [], ("dddd").toList] ∧
    (to_line_length 60 [("  a").toList] 0).1 ≠ [("  a").toList] := by
  decide

/-- C1 counterexample: saving the non-temporary session whose history is a
single `system` turn succeeds, but loading the saved record into a fresh
client recovers an empty turn sequence — the raw history is not
recovered. -/
theorem c1_counterexample :
    save_current_session c1Session = some (recordOf c1Session) ∧
    (load_session baseState (recordOf c1Session) (("a").toList)).map
        ClientState.session_data = .ok [] ∧
    (recordOf c1Session).history.getD [] ≠ [] := by
  decide

/-- C10 counterexample: loading a record whose history holds a `system`
turn leaves the in-memory sequence equal to the pre-existing turns only —
not to the pre-existing turns followed by the record's history. -/
theorem c10_counterexample :
    (load_session c10Client c10Rec (("n").toList)).map ClientState.session_data
      = .ok [⟨USER, ("q").toList, none⟩] ∧
    c10Client.session_data ++ (c10Rec.history.getD [])
      ≠ [⟨USER, ("q").toList, none⟩] := by
  decide

/-- C4: evaluation at the failing input.  The stored `system` turn is
normalized to its personality label (not to the generic system category),
and the plain-text export writes its content — the entry is not suppressed
from the output. -/
theorem c4_system_entry_not_suppressed :
    exportNormalize c4Client.session_data
      = .ok [⟨("neutral").toList, ("oops").toList⟩] ∧
    export_session c4Client (("out.txt").toList) 60
      = .ok ⟨false, Written.text (("oops\n").toList)⟩ := by
  decide

/-- C7: evaluation at the failing input.  An unrecognized extension shows
the invalid-extension error yet a file holding a single newline is still
written; a destination with no extension behaves exactly like the
plain-text one. -/
theorem c7_invalid_extension_still_writes :
    export_session c7Client (("out.xyz").toList) 60
      = .ok ⟨true, Written.text (("\n").toList)⟩ ∧
    export_session c7Client (("out").toList) 60
      = export_session c7Client (("out.txt").toList) 60 := by
  decide

/-- C5: for every store, the continue command fails with
`NothingToContinue` on an empty store and with `NotContinuable` when the
last turn's role is `system`; in both failure cases the outcome holds for
every provider (none is called, as the `providerCalled` flag records) and
the turn store is unchanged. -/
theorem c5_continue_failure_cases (store : List Turn)
    (provider : List Turn → Except Unit (List Char)) (pers : List Char) :
    (store = [] →
      continue_message store provider pers
        = ⟨store, some ContinueError.NothingToContinue, false⟩) ∧
    (∀ t, store.getLast? = some t → t.role = SYSTEM →
      continue_message store provider pers
        = ⟨store, some ContinueError.NotContinuable, false⟩) := by
  constructor
  · intro h; subst h; rfl
  · intro t hlast hrole
    have hne : ¬ (t.role = ASSISTANT ∨ t.role = USER) := by
      rw [hrole]; decide
    simp [continue_message, hlast, hne]

/-- C5 witness: a concrete store whose last turn is a `system` placeholder
is rejected with `NotContinuable`, unchanged, without a provider call. -/
theorem c5_witness :
    continue_message [⟨SYSTEM, ("x").toList, none⟩] (fun _ => .ok [])
        (("neutral").toList)
      = ⟨[⟨SYSTEM, ("x").toList, none⟩], some ContinueError.NotContinuable, false⟩ :=
  (c5_continue_failure_cases [⟨SYSTEM, ("x").toList, none⟩] (fun _ => .ok [])
    (("neutral").toList)).2 ⟨SYSTEM, ("x").toList, none⟩ (by decide) rfl

/-- C6: whenever export normalization merges continuation content onto the
previously emitted entry, the new content is appended with exactly one
inserted space, unless its first character is one of the closing
punctuation marks, in which case no space is inserted. -/
theorem c6_continuation_join_rule (prev cr : List Char) (ch : Char)
    (p1 p2 p3 : Option (List Char)) (r : List Char)
    (h1 : prev ≠ CONTINUE) (h2 : prev ≠ []) :
    exportNormalize [⟨USER, prev, p1⟩, ⟨USER, CONTINUE, p2⟩, ⟨r, ch :: cr, p3⟩]
      = .ok [⟨USER, prev ++ ((if ch ∈ closingPunct then [] else [' ']) ++ (ch :: cr))⟩] := by
  have h3 : ¬ (prev = CONTINUE ∨ prev = []) := not_or.mpr ⟨h1, h2⟩
  simp [exportNormalize, exportNormalizeLoop, normStep, add_space_when_needed, h3]

/-- C6 witness: merging `"yo"` after `"hi"` inserts exactly one space. -/
theorem c6_witness :
    exportNormalize [⟨USER, ("hi").toList, none⟩, ⟨USER, CONTINUE, none⟩,
        ⟨ASSISTANT, 'y' :: ("o").toList, none⟩]
      = .ok [⟨USER, ("hi").toList
          ++ ((if 'y' ∈ closingPunct then [] else [' ']) ++ ('y' :: ("o").toList))⟩] :=
  c6_continuation_join_rule (("hi").toList) (("o").toList) 'y' none none none
    ASSISTANT (by decide) (by decide)

/-- C3 (amended): when the last turn's role is `user` and the provider
replies, the continue command appends — in storage — the sentinel user turn
followed by the reply as a normal new `assistant` turn; no merge happens in
the turn store. -/
theorem c3_user_last_new_assistant_turn (store : List Turn) (t : Turn)
    (reply pers : List Char) (provider : List Turn → Except Unit (List Char))
    (hlast : store.getLast? = some t) (hrole : t.role = USER)
    (hp : provider (store ++ [⟨USER, CONTINUE, none⟩]) = .ok reply) :
    continue_message store provider pers
      = ⟨store ++ [⟨USER, CONTINUE, none⟩, ⟨ASSISTANT, reply, some pers⟩],
         none, true⟩ := by
  simp [continue_message, hlast, hrole, hp]

/-- C3 witness: the concrete user-last store grows by the sentinel and a
fresh assistant turn. -/
theorem c3_witness :
    continue_message [⟨USER, ("hi").toList, none⟩]
        (fun _ => .ok (("yo").toList)) (("neutral").toList)
      = ⟨[⟨USER, ("hi").toList, none⟩] ++ [⟨USER, CONTINUE, none⟩,
          ⟨ASSISTANT, ("yo").toList, some (("neutral").toList)⟩], none, true⟩ :=
  c3_user_last_new_assistant_turn [⟨USER, ("hi").toList, none⟩]
    ⟨USER, ("hi").toList, none⟩ (("yo").toList) (("neutral").toList)
    (fun _ => .ok (("yo").toList)) (by decide) rfl rfl

/-- C9 (amended): the normalization merge is partial — when the store's
first turn is a user continuation sentinel (or empty user content) and at
least one turn follows, normalization raises the indexing error; and any
merge step whose merged-in content is empty raises it as well. -/
theorem c9_normalization_merge_partial :
    (∀ (t1 t2 : Turn) (rest : List Turn), t1.role = USER →
        (t1.content = CONTINUE ∨ t1.content = []) →
        exportNormalize (t1 :: t2 :: rest) = .error ()) ∧
    (∀ (data : List NormEntry) (sd : Turn), sd.content = [] →
        normStep data true sd = .error ()) := by
  constructor
  · intro t1 t2 rest h1 h2
    simp [exportNormalize, exportNormalizeLoop, normStep, h1, h2]
  · intro data sd h
    cases hd : data.getLast? <;>
      simp [normStep, h, hd, add_space_when_needed]

/-- C9 witness: a sentinel-first store with a following turn errors. -/
theorem c9_witness :
    exportNormalize [⟨USER, CONTINUE, none⟩, ⟨ASSISTANT, ("x").toList, none⟩]
      = .error () :=
  c9_normalization_merge_partial.1 ⟨USER, CONTINUE, none⟩
    ⟨ASSISTANT, ("x").toList, none⟩ [] rfl (Or.inl rfl)

/-- Invariant of the greedy word loop: if every already-closed line and the
running line are within the width, and the indent plus each remaining word
is within the width, then the loop keeps every closed line and the running
line within the width. -/
theorem reflow_foldl_bound (len : Nat) (ind : List Char)
    (ws : List (List Char)) :
    ∀ (outarr : List (List Char)) (line2 : List Char) (m : Nat),
      (∀ l ∈ outarr, l.length ≤ len) → line2.length ≤ len →
      (∀ w ∈ ws, ind.length + w.length ≤ len) →
      (∀ l ∈ (ws.foldl (reflowStep len ind) (outarr, line2, m)).1, l.length ≤ len) ∧
        (ws.foldl (reflowStep len ind) (outarr, line2, m)).2.1.length ≤ len := by
  induction ws with
  | nil =>
    intro outarr line2 m ho hl _
    exact ⟨ho, hl⟩
  | cons w ws ih =>
    intro outarr line2 m ho hl hw
    rw [List.foldl_cons]
    by_cases hc : line2.length + w.length + 1 > len
    · have hstep : reflowStep len ind (outarr, line2, m) w
          = (outarr ++ [line2], ind ++ w,
             if m < line2.length then line2.length else m) := by
        simp [reflowStep, hc]
      rw [hstep]
      refine ih _ _ _ ?_ ?_ ?_
      · intro l hmem
        rcases List.mem_append.1 hmem with h | h
        · exact ho l h
        · simp only [List.mem_singleton] at h
          subst h
          exact hl
      · have hww := hw w (List.mem_cons_self w ws)
        simp only [List.length_append]
        omega
      · intro x hx
        exact hw x (List.mem_cons_of_mem _ hx)
    · have hle : line2.length + w.length + 1 ≤ len := Nat.le_of_not_lt hc
      have hstep : reflowStep len ind (outarr, line2, m) w
          = (outarr, line2 ++ (if line2 = [] then w else ' ' :: w), m) := by
        simp [reflowStep, hc]
      rw [hstep]
      refine ih _ _ _ ho ?_ (fun x hx => hw x (List.mem_cons_of_mem _ hx))
      by_cases hz : line2 = []
      · subst hz
        simp only [List.length_nil] at hle
        have hwl : w.length ≤ len := by omega
        simpa using hwl
      · rw [if_neg hz]
        simp only [List.length_append, List.length_cons]
        omega

/-- Every line produced by `to_line_length` is within the width, provided
the width accommodates, per source line, the indentation and each
indentation-plus-word combination. -/
theorem to_line_length_bound (len : Nat) (lines : List (List Char)) :
    ∀ m : Nat,
      (∀ line ∈ lines, (indentOf line).length ≤ len ∧
        ∀ w ∈ splitWords line, (indentOf line).length + w.length ≤ len) →
      ∀ l ∈ (to_line_length len lines m).1, l.length ≤ len := by
  induction lines with
  | nil =>
    intro m _ l hl
    simp [to_line_length] at hl
  | cons line rest ih =>
    intro m h l hl
    have hline := h line (List.mem_cons_self line rest)
    have hrest := fun x hx => h x (List.mem_cons_of_mem line hx)
    have hb := reflow_foldl_bound len (indentOf line) (splitWords line)
      [] (indentOf line) m (by intro x hx; simp at hx) hline.1 hline.2
    simp only [to_line_length] at hl
    rcases List.mem_append.1 hl with h1 | h3
    · rcases List.mem_append.1 h1 with h1a | h1b
      · exact hb.1 l h1a
      · simp only [List.mem_singleton] at h1b
        subst h1b
        exact hb.2
    · exact ih _ hrest l h3

/-- C2 (amended): the width bound must count the indentation — for every
input and every width at least each line's indentation length and at least
each line's indentation-plus-word length for every one of its words, every
output line (its leading indentation included) has length at most the
width (and no exception clause is needed under this hypothesis). -/
theorem c2_reflow_width_bound (len : Nat) (lines : List (List Char))
    (h : ∀ line ∈ lines, (indentOf line).length ≤ len ∧
      ∀ w ∈ splitWords line, (indentOf line).length + w.length ≤ len) :
    ∀ l ∈ (to_line_length len lines 0).1, l.length ≤ len :=
  to_line_length_bound len lines 0 h

/-- C2 witness: the hypothesis holds for `"ab cd"` at width 5, and the
single output line it yields is within the width. -/
theorem c2_witness : (("ab cd").toList).length ≤ 5 :=
  c2_reflow_width_bound 5 [("ab cd").toList] (by decide)
    (("ab cd").toList) (by decide)

/-- `appendWords` only grows the running line. -/
theorem length_le_appendWords (ws : List (List Char)) :
    ∀ cur : List Char, cur.length ≤ (appendWords cur ws).length := by
  induction ws with
  | nil => intro cur; simp [appendWords]
  | cons w ws ih =>
    intro cur
    have h1 : cur.length ≤ (cur ++ ' ' :: w).length := by simp
    exact Nat.le_trans h1 (ih (cur ++ ' ' :: w))

/-- `str.split()` never produces an empty word. -/
theorem splitWordsAux_ne_nil (s : List Char) :
    ∀ acc : List Char, ∀ w ∈ splitWordsAux s acc, w ≠ [] := by
  induction s with
  | nil =>
    intro acc w hw
    by_cases hz : acc = []
    · simp [splitWordsAux, hz] at hw
    · simp only [splitWordsAux, if_neg hz, List.mem_singleton] at hw
      subst hw
      simpa using hz
  | cons c rest ih =>
    intro acc w hw
    by_cases hws : isWS c
    · by_cases hz : acc = []
      · simp only [splitWordsAux, hws, if_true, if_pos hz] at hw
        exact ih [] w hw
      · simp only [splitWordsAux, hws, if_true, if_neg hz, List.mem_cons] at hw
        rcases hw with h | h
        · subst h; simpa using hz
        · exact ih [] w h
    · simp only [splitWordsAux, hws, if_false] at hw
      exact ih (c :: acc) w hw

/-- Once the running line is non-empty and the whole space-joined remainder
fits within the width, the greedy loop never closes the line: it simply
appends every remaining word, one space before each. -/
theorem reflow_foldl_fits (len : Nat) (ind : List Char)
    (ws : List (List Char)) :
    ∀ (outarr : List (List Char)) (cur : List Char) (m : Nat),
      cur ≠ [] → (appendWords cur ws).length ≤ len →
      ws.foldl (reflowStep len ind) (outarr, cur, m) = (outarr, appendWords cur ws, m) := by
  induction ws with
  | nil =>
    intro outarr cur m _ _
    simp [appendWords]
  | cons w ws ih =>
    intro outarr cur m hne hlen
    rw [List.foldl_cons]
    have hgrow : (cur ++ ' ' :: w).length ≤ (appendWords cur (w :: ws)).length := by
      exact length_le_appendWords ws (cur ++ ' ' :: w)
    have hc : ¬ (cur.length + w.length + 1 > len) := by
      simp only [List.length_append, List.length_cons] at hgrow
      omega
    have hstep : reflowStep len ind (outarr, cur, m) w = (outarr, cur ++ ' ' :: w, m) := by
      simp [reflowStep, hc, hne]
    rw [hstep]
    have hres := ih outarr (cur ++ ' ' :: w) m (by simp) hlen
    exact hres

/-- A canonical line (no indentation, singly spaced, within the width,
every word shorter than the width) is reproduced unchanged by the greedy
word loop. -/
theorem reflow_line_fixed (len : Nat) (line : List Char) (m : Nat)
    (hind : indentOf line = []) (hjoin : line = joinWords (splitWords line))
    (hlen : line.length ≤ len) (hw : ∀ w ∈ splitWords line, w.length + 1 ≤ len) :
    (splitWords line).foldl (reflowStep len (indentOf line)) ([], indentOf line, m)
      = ([], line, m) := by
  rw [hind]
  cases hws : splitWords line with
  | nil =>
    have hl0 : line = [] := by rw [hjoin, hws]; rfl
    rw [List.foldl_nil, hl0]
  | cons w1 rest =>
    rw [List.foldl_cons]
    have hmem : w1 ∈ splitWords line := by
      rw [hws]; exact List.mem_cons_self _ _
    have hw1 : w1.length + 1 ≤ len := hw w1 hmem
    have hc : ¬ (([] : List Char).length + w1.length + 1 > len) := by
      simp only [List.length_nil]
      omega
    have hstep : reflowStep len [] ([], [], m) w1 = ([], w1, m) := by
      simp [reflowStep, hc]
      omega
    rw [hstep]
    have hne : w1 ≠ [] := splitWordsAux_ne_nil line [] w1 hmem
    have hline : line = appendWords w1 rest := by
      rw [hjoin, hws]; rfl
    have hfit : (appendWords w1 rest).length ≤ len := by
      rw [← hline]; exact hlen
    rw [reflow_foldl_fits len [] rest [] w1 m hne hfit, ← hline]

/-- On a block of canonical pre-wrapped lines, `to_line_length` returns
exactly the input lines. -/
theorem to_line_length_fixed (len : Nat) (lines : List (List Char)) :
    ∀ m : Nat,
      (∀ line ∈ lines, indentOf line = [] ∧ line = joinWords (splitWords line) ∧
        line.length ≤ len ∧ ∀ w ∈ splitWords line, w.length + 1 ≤ len) →
      (to_line_length len lines m).1 = lines := by
  induction lines with
  | nil => intro m _; rfl
  | cons line rest ih =>
    intro m h
    obtain ⟨h1, h2, h3, h4⟩ := h line (List.mem_cons_self _ _)
    have hfix := reflow_line_fixed len line m h1 h2 h3 h4
    have hrest := fun x hx => h x (List.mem_cons_of_mem line hx)
    simp only [to_line_length, hfix]
    simp [ih _ hrest]

/-- C8 (amended): the reflow engine is idempotent on pre-wrapped input
with no leading indentation whose words are all shorter than the width —
for such text, reflowing at the same width reproduces exactly the input
(in particular, its line breaks).  (An indented pre-wrapped line instead
gains an extra space after its indent, and a line consisting of a single
word of length at least the width gains a preceding empty line.) -/
theorem c8_reflow_idempotent (len : Nat) (lines : List (List Char))
    (h : ∀ line ∈ lines, indentOf line = [] ∧ line = joinWords (splitWords line) ∧
      line.length ≤ len ∧ ∀ w ∈ splitWords line, w.length + 1 ≤ len) :
    (to_line_length len lines 0).1 = lines :=
  to_line_length_fixed len lines 0 h

/-- C8 witness: the already-wrapped block `"a bb\nccc"` at width 4 is
reproduced exactly. -/
theorem c8_witness :
    (to_line_length 4 [("a bb").toList, ("ccc").toList] 0).1
      = [("a bb").toList, ("ccc").toList] :=
  c8_reflow_idempotent 4 [("a bb").toList, ("ccc").toList] (by decide)

/-- A filter whose predicate holds on every element keeps the list. -/
theorem filter_keep_all {α : Type} (p : α → Bool) (l : List α)
    (h : ∀ a ∈ l, p a = true) : l.filter p = l := by
  induction l with
  | nil => rfl
  | cons a l ih =>
    rw [List.filter_cons, if_pos (h a (List.mem_cons_self a l)),
      ih (fun x hx => h x (List.mem_cons_of_mem a hx))]

/-- The replay loop of `load_session` appends exactly the non-`system`
turns of the loaded history onto the accumulator, for any starting value of
the `is_continued` flag. -/
theorem loadLoop_filter (sds : List Turn) :
    ∀ (acc : List Turn) (ic : Bool),
      (∀ t ∈ sds, t.role = USER ∨ t.role = ASSISTANT ∨ t.role = SYSTEM) →
      loadLoop acc ic sds
        = .ok (acc ++ sds.filter (fun t => decide (t.role ≠ SYSTEM))) := by
  induction sds with
  | nil =>
    intro acc ic _
    simp [loadLoop]
  | cons t rest ih =>
    intro acc ic h
    have hrest := fun x hx => h x (List.mem_cons_of_mem t hx)
    rcases h t (List.mem_cons_self t rest) with hu | ha | hs
    · have hl : lookupRoleName t.role = some USER_NAME := by rw [hu]; rfl
      have hp : decide (t.role ≠ SYSTEM) = true := by rw [hu]; decide
      have hne1 : ¬ (USER_NAME = ASSISTANT_NAME ∧ ic = true) := fun hx =>
        absurd hx.1 (by decide)
      have hne2 : USER_NAME ≠ SYSTEM_NAME := by decide
      simp only [loadLoop, hl, if_neg hne1, if_neg hne2]
      rw [ih _ _ hrest]
      simp [List.filter_cons, List.append_assoc]
      rw [if_neg (show ¬ t.role = SYSTEM by rw [hu]; decide)]
    · have hl : lookupRoleName t.role = some ASSISTANT_NAME := by rw [ha]; rfl
      have hp : decide (t.role ≠ SYSTEM) = true := by rw [ha]; decide
      cases ic with
      | true =>
        have hpos : ASSISTANT_NAME = ASSISTANT_NAME ∧ (true : Bool) = true := ⟨rfl, rfl⟩
        simp only [loadLoop, hl, if_pos hpos]
        rw [ih _ _ hrest]
        simp [List.filter_cons, List.append_assoc]
        rw [if_neg (show ¬ t.role = SYSTEM by rw [ha]; decide)]
      | false =>
        have hne1 : ¬ (ASSISTANT_NAME = ASSISTANT_NAME ∧ (false : Bool) = true) :=
          fun hx => Bool.noConfusion hx.2
        have hne2 : ASSISTANT_NAME ≠ SYSTEM_NAME := by decide
        have hne3 : ¬ (ASSISTANT_NAME = USER_NAME ∧ t.content = CONTINUE) := fun hx =>
          absurd hx.1 (by decide)
        simp only [loadLoop, hl, if_neg hne1, if_neg hne2, if_neg hne3]
        rw [ih _ _ hrest]
        simp [List.filter_cons, List.append_assoc]
        rw [if_neg (show ¬ t.role = SYSTEM by rw [ha]; decide)]
    · have hl : lookupRoleName t.role = some SYSTEM_NAME := by rw [hs]; rfl
      have hp : decide (t.role ≠ SYSTEM) = false := by rw [hs]; decide
      have hne1 : ¬ (SYSTEM_NAME = ASSISTANT_NAME ∧ ic = true) := fun hx =>
        absurd hx.1 (by decide)
      simp only [loadLoop, hl, if_neg hne1, if_pos rfl]
      rw [ih _ _ hrest]
      simp [List.filter_cons]
      rw [if_pos hs]

/-- C10 (amended): load appends rather than replaces, but filters — after
the load, the in-memory turn sequence equals the previous sequence followed
by the record's history with its `system`-role turns removed; the
generation-parameter fields are overwritten only where present in the
record. -/
theorem c10_load_appends_filtered (st : ClientState) (rec : SavedRecord)
    (name : List Char)
    (h : ∀ t ∈ rec.history.getD [], t.role = USER ∨ t.role = ASSISTANT ∨ t.role = SYSTEM) :
    load_session st rec name = .ok { st with
      session_data := st.session_data
        ++ (rec.history.getD []).filter (fun t => decide (t.role ≠ SYSTEM)),
      model := rec.model.getD st.model,
      personality := rec.personality.getD st.personality,
      add_sys_msg := rec.add_sys_msg.getD st.add_sys_msg,
      max_tokens := rec.max_tokens.getD st.max_tokens,
      current_session := some name } := by
  have hl := loadLoop_filter (rec.history.getD []) st.session_data false h
  simp [load_session, hl]

/-- C10 witness: the amended statement evaluated at the concrete client
and record of the counterexample. -/
theorem c10_witness :
    load_session c10Client c10Rec (("n").toList) = .ok { c10Client with
      session_data := c10Client.session_data
        ++ (c10Rec.history.getD []).filter (fun t => decide (t.role ≠ SYSTEM)),
      model := c10Rec.model.getD c10Client.model,
      personality := c10Rec.personality.getD c10Client.personality,
      add_sys_msg := c10Rec.add_sys_msg.getD c10Client.add_sys_msg,
      max_tokens := c10Rec.max_tokens.getD c10Client.max_tokens,
      current_session := some (("n").toList) } :=
  c10_load_appends_filtered c10Client c10Rec (("n").toList) (by decide)

/-- C1 (amended): for every non-temporary session with a current id,
saving and then loading the record into a fresh (empty-store) client
restores all four generation parameters, and restores the raw turn
sequence exactly when the history contains no `system`-role turn (which
`load_session` would drop). -/
theorem c1_save_load_roundtrip (s fresh : ClientState) (name : List Char)
    (hcs : s.current_session = some name) (hname : name ≠ [])
    (htemp : s.temp_session = false)
    (hroles : ∀ t ∈ s.session_data, t.role = USER ∨ t.role = ASSISTANT ∨ t.role = SYSTEM)
    (hnosys : ∀ t ∈ s.session_data, ¬ t.role = SYSTEM)
    (hfresh : fresh.session_data = []) :
    save_current_session s = some (recordOf s) ∧
    load_session fresh (recordOf s) name = .ok { fresh with
      session_data := s.session_data, model := s.model,
      personality := s.personality, add_sys_msg := s.add_sys_msg,
      max_tokens := s.max_tokens, current_session := some name } := by
  constructor
  · simp [save_current_session, hcs, hname, htemp]
  · have hfilter : (s.session_data).filter (fun t => decide (t.role ≠ SYSTEM))
        = s.session_data :=
      filter_keep_all _ _ (fun t ht => by
        rw [decide_eq_true_eq]; exact hnosys t ht)
    have hl := loadLoop_filter s.session_data fresh.session_data false hroles
    rw [hfilter, hfresh] at hl
    simp only [List.nil_append] at hl
    simp [load_session, recordOf, hfresh, hl]

/-- C1 witness: the round trip evaluated at a concrete non-temporary
session whose history holds a user and an assistant turn. -/
theorem c1_witness :
    save_current_session c1WitSession = some (recordOf c1WitSession) ∧
    load_session baseState (recordOf c1WitSession) (("a").toList)
      = .ok { baseState with
          session_data := c1WitSession.session_data,
          model := c1WitSession.model,
          personality := c1WitSession.personality,
          add_sys_msg := c1WitSession.add_sys_msg,
          max_tokens := c1WitSession.max_tokens,
          current_session := some (("a").toList) } :=
  c1_save_load_roundtrip c1WitSession baseState (("a").toList) rfl (by decide)
    rfl (by decide) (by decide) rfl
